import Mathlib

/-!
Verification development for the avro-typescript converter core
(`src/avro-typescript/index.ts`): a shallow embedding of the
schema-to-TypeScript translation algorithm, together with theorems
checking the natural-language specification against it.

The JavaScript module keeps two pieces of state: a module-level
`interfaces` object mapping declared schema names to generated
TypeScript identifiers, and a per-call output buffer of declaration
blocks.  Both are modelled explicitly in `ConvState` and threaded
through the recursive conversion functions.
-/

set_option autoImplicit false

namespace AvroTS

/-! ## JavaScript value model for field defaults

A `Field.default` in the source is an arbitrary parsed JSON value.
The converter only ever asks two questions of it: is it truthy, and is
it literally `null`.  We model the JSON values that can appear as
defaults; truthiness follows the JavaScript rules for each shape. -/

inductive JsonValue where
  | jnull
  | jbool (b : Bool)
  | jnum (n : Int)
  | jstr (s : String)
  deriving DecidableEq, Repr

/-- JavaScript truthiness of a JSON value: `null`, `false`, `0` and the
empty string are falsy, everything else modelled here is truthy. -/
def jsTruthy : JsonValue → Bool
  | .jnull => false
  | .jbool b => b
  | .jnum n => n != 0
  | .jstr s => s != ""

/-- Whether a JSON value is literally `null` (the `=== null` test). -/
def isJsNull : JsonValue → Bool
  | .jnull => true
  | _ => false

/-- Embeds `!!(field.default || field.default === null)` from
`convertFieldDec`: `none` models an absent `default` key (JavaScript
`undefined`). -/
def hasDefaultValue : Option JsonValue → Bool
  | none => false
  | some v => jsTruthy v || isJsNull v

/-! ## The resolution table

The module-level `interfaces` object is modelled as an association
list; `setKey` is JavaScript property assignment (overwrite in place or
append), `getKey` is `hasOwnProperty`-guarded access. -/

def setKey : List (String × String) → String → String → List (String × String)
  | [], key, v => [(key, v)]
  | (k, w) :: rest, key, v =>
    if k = key then (key, v) :: rest else (k, w) :: setKey rest key v

def getKey : List (String × String) → String → Option String
  | [], _ => none
  | (k, w) :: rest, key => if k = key then some w else getKey rest key

/-- `interfaces.hasOwnProperty(key) ? interfaces[key] : d`. -/
def getKeyD (m : List (String × String)) (key d : String) : String :=
  match getKey m key with
  | some v => v
  | none => d

/-- JavaScript `str.split(sep)` over the character list, for a
one-character separator: splits into the (always non-empty) list of
chunks between occurrences of the separator. -/
def splitChars (sep : Char) : List Char → List (List Char)
  | [] => [[]]
  | c :: cs =>
    let r := splitChars sep cs
    if c = sep then [] :: r
    else
      match r with
      | [] => [[c]]
      | g :: gs => (c :: g) :: gs

/-- `name.split('.').pop()`: the part after the last dot. -/
def stripNamespace (name : String) : String :=
  String.mk ((splitChars '.' name.data).getLastD [])

/-- A single-quote character (code point 39), used when rendering enum
member values. -/
def quoteStr : String := String.singleton (Char.ofNat 39)

/-- Index of the first occurrence of `v`, if any. -/
def firstIdx : List String → String → Option Nat
  | [], _ => none
  | x :: xs, v => if x = v then some 0 else (firstIdx xs v).map (· + 1)

/-- JavaScript `arr.indexOf(v)`: index of the first occurrence, `-1`
when absent. -/
def jsIndexOf (arr : List String) (v : String) : Int :=
  match firstIdx arr v with
  | some i => (i : Int)
  | none => -1

/-- Embeds `arr.filter((value, index, arr) => arr.indexOf(value) === index)`:
keeps exactly the first occurrence of each element. -/
def filterIsUnique (arr : List String) : List String :=
  (arr.enum.filter (fun p => jsIndexOf arr p.2 == (p.1 : Int))).map Prod.snd

/-- The `isUnion` probe in the array branch: `s.indexOf('|') >= 0`. -/
def isUnionStr (s : String) : Bool := s.data.contains '|'

/-! ## Documentation rendering -/

/-- Greedy word-wrap used by the documentation renderer: fills each line
up to `width` characters, never splitting a word. -/
def wrapFill : List String → Nat → String → List String
  | [], _, cur => if cur = "" then [] else [cur]
  | w :: ws, width, cur =>
    if cur = "" then wrapFill ws width w
    else if (cur ++ " " ++ w).length ≤ width then wrapFill ws width (cur ++ " " ++ w)
    else cur :: wrapFill ws width w

/-- Modelled from the spec: `createDocumentation` lives in `../utils`,
which is not among the provided sources.  Per the specification, an
absent doc string produces the empty string (no block); a present one
is word-wrapped into a block comment whose lines carry the indentation
and a continuation marker, bounded by open and close delimiters and
followed by a newline. -/
def createDocumentation (doc : Option String) (width : Nat) (indent : String) : String :=
  match doc with
  | none => ""
  | some d =>
    let words := ((splitChars ' ' d.data).map String.mk).filter (fun w => w ≠ "")
    let lines := wrapFill words width ""
    indent ++ "/**\n" ++
      String.join (lines.map (fun l => indent ++ " * " ++ l ++ "\n")) ++
      indent ++ " */\n"

/-! ## The schema data model

The untagged structural dispatch of the JavaScript source (string vs
array vs object-with-specific-keys) becomes a tagged union.  Union
member lists and field lists are their own inductive types so that the
conversion functions are plainly structurally recursive. -/

/-- An Avro enum schema node. -/
structure EnumType where
  name : String
  doc : Option String
  symbols : List String
  deriving Repr

mutual
inductive AvroType where
  /-- A primitive name or a textual type reference. -/
  | prim (s : String)
  /-- A union, written as a JSON array of member schemas. -/
  | union (ts : TypeList)
  /-- A nested record schema. -/
  | recT (r : RecordType)
  /-- An array schema with its `items` type. -/
  | arr (items : AvroType)
  /-- A map schema with its `values` type. -/
  | mapT (values : AvroType)
  /-- A nested enum schema. -/
  | enumT (e : EnumType)
  /-- A logical decimal node. -/
  | decimalT
  /-- Any unrecognized shape. -/
  | unknownT

inductive TypeList where
  | nil
  | cons (head : AvroType) (tail : TypeList)

inductive RecordType where
  | mk (name : String) (doc : Option String) (fields : FieldList)

inductive FieldList where
  | nil
  | cons (head : AvroField) (tail : FieldList)

inductive AvroField where
  | mk (name : String) (doc : Option String) (default : Option JsonValue) (type : AvroType)
end

def RecordType.name : RecordType → String
  | .mk n _ _ => n

def RecordType.doc : RecordType → Option String
  | .mk _ d _ => d

def RecordType.fields : RecordType → FieldList
  | .mk _ _ fs => fs

def AvroField.name : AvroField → String
  | .mk n _ _ _ => n

def AvroField.doc : AvroField → Option String
  | .mk _ d _ _ => d

def AvroField.default : AvroField → Option JsonValue
  | .mk _ _ d _ => d

def AvroField.type : AvroField → AvroType
  | .mk _ _ _ t => t

/-- Whether a union member is the `null` primitive. -/
def isNullPrim : AvroType → Bool
  | .prim s => s = "null"
  | _ => false

def anyNull : TypeList → Bool
  | .nil => false
  | .cons t rest => isNullPrim t || anyNull rest

/-- Modelled from the spec: `isOptional` lives in `./model`, which is
not among the provided sources.  Per the specification, a field is
structurally optional exactly when its type is a union containing the
`null` primitive, or is `null` itself. -/
def isOptional (t : AvroType) : Bool :=
  match t with
  | .prim s => s = "null"
  | .union ts => anyNull ts
  | _ => false

/-! ## Conversion state -/

/-- The mutable context of one conversion: the module-level `interfaces`
table, the output buffer the blocks are pushed onto, and the
`console.error` diagnostics side channel. -/
structure ConvState where
  interfaces : List (String × String)
  buffer : List String
  diagnostics : List String
  deriving Repr

def initState : ConvState := ⟨[], [], []⟩

/-! ## The conversion functions -/

/-- Embeds `convertPrimitive(avroType, hasDefaultValue)`; the
module-level `interfaces` table is passed explicitly. -/
def convertPrimitive (avroType : String) (hdv : Bool)
    (interfaces : List (String × String)) : String :=
  if avroType = "long" then "number"
  else if avroType = "int" then "number"
  else if avroType = "double" then "number"
  else if avroType = "float" then "number"
  else if avroType = "bytes" then "Buffer"
  else if avroType = "null" then (if hdv then "null" else "null | undefined")
  else if avroType = "boolean" then "boolean"
  else getKeyD interfaces (stripNamespace avroType) (stripNamespace avroType)

/-- Embeds `convertEnum(enumType, buffer)`: renders the enum block,
pushes it, and returns the declared name.  Note that the source neither
strips the namespace from the name nor registers it in `interfaces`. -/
def convertEnum (enumType : EnumType) (st : ConvState) : String × ConvState :=
  let docStr := createDocumentation enumType.doc 80 ""
  let enumDef := docStr ++ "export enum " ++ enumType.name ++ " \x7b\n\t" ++
    String.intercalate ",\n\t"
      (enumType.symbols.map (fun s => s ++ " = " ++ quoteStr ++ s ++ quoteStr)) ++
    "\n\x7d\n"
  (enumType.name, { st with buffer := st.buffer ++ [enumDef] })

mutual

/-- Embeds `convertRecord(recordType, buffer, parentRecordType?)`. -/
def convertRecord (recordType : RecordType) (parentRecordType : Option RecordType)
    (st : ConvState) : String × ConvState :=
  match recordType with
  | .mk nm doc fields =>
    let docStr := createDocumentation doc 80 ""
    let cleanName :=
      match parentRecordType with
      | some parent => "I" ++ stripNamespace parent.name ++ stripNamespace nm
      | none => "I" ++ stripNamespace nm
    match convertFields fields (.mk nm doc fields) st with
    | (fieldLines, st1) =>
      let interfaceDef := docStr ++ "export interface " ++ cleanName ++ " \x7b\n" ++
        String.intercalate "\n" fieldLines ++ "\n\x7d\n"
      (cleanName,
        { st1 with
          buffer := st1.buffer ++ [interfaceDef],
          interfaces := setKey st1.interfaces nm cleanName })

/-- `recordType.fields.map(field => convertFieldDec(field, buffer, recordType))`,
with the state threaded left to right as the JavaScript mutation does. -/
def convertFields (fields : FieldList) (recordType : RecordType)
    (st : ConvState) : List String × ConvState :=
  match fields with
  | .nil => ([], st)
  | .cons f rest =>
    match convertFieldDec f (some recordType) st with
    | (line, st1) =>
      match convertFields rest recordType st1 with
      | (lines, st2) => (line :: lines, st2)

/-- Embeds `convertFieldDec(field, buffer, parentRecordType?)`. -/
def convertFieldDec (field : AvroField) (parentRecordType : Option RecordType)
    (st : ConvState) : String × ConvState :=
  match field with
  | .mk fname fdoc fdefault ftype =>
    let docStr := createDocumentation fdoc 80 "\t"
    let hdv := hasDefaultValue fdefault
    match convertType ftype hdv parentRecordType st with
    | (ty, st1) =>
      let replacedType := getKeyD st1.interfaces ty ty
      (docStr ++ "\t" ++ fname ++
        (if isOptional ftype && !hdv then "?" else "") ++ ": " ++ replacedType ++ ";",
       st1)

/-- Embeds `convertType(type, hasDefaultValue, buffer, parentRecordType?)`. -/
def convertType (type : AvroType) (hdv : Bool) (parentRecordType : Option RecordType)
    (st : ConvState) : String × ConvState :=
  match type with
  | .prim s => (convertPrimitive s hdv st.interfaces, st)
  | .union ts =>
    match convertUnionMembers ts hdv st with
    | (names, st1) =>
      let resolved := names.map (fun n => getKeyD st1.interfaces n n)
      (String.intercalate " | " (filterIsUnique resolved), st1)
  | .recT r => convertRecord r parentRecordType st
  | .arr items =>
    match convertType items hdv none st with
    | (raw, st1) =>
      let nm := stripNamespace raw
      let properName := getKeyD st1.interfaces nm nm
      ((if isUnionStr properName then "Array<" ++ properName ++ ">"
        else properName ++ "[]"), st1)
  | .mapT values =>
    match convertType values hdv none st with
    | (v, st1) => ("\x7b [key: string]: " ++ v ++ " \x7d", st1)
  | .enumT e => convertEnum e st
  | .decimalT => ("number", st)
  | .unknownT =>
    ("UNKNOWN", { st with diagnostics := st.diagnostics ++ ["Cannot work out type"] })

/-- `type.map(t => stripNamespace(convertType(t, hasDefaultValue, buffer)))`
over the members of a union; note the recursive call passes no parent. -/
def convertUnionMembers (ts : TypeList) (hdv : Bool)
    (st : ConvState) : List String × ConvState :=
  match ts with
  | .nil => ([], st)
  | .cons t rest =>
    match convertType t hdv none st with
    | (s, st1) =>
      match convertUnionMembers rest hdv st1 with
      | (names, st2) => (stripNamespace s :: names, st2)

end

/-- The top-level input: a record or an enum schema. -/
inductive TopSchema where
  | recS (r : RecordType)
  | enumS (e : EnumType)

/-- Embeds `avroToTypeScript(recordType)` with the incoming state of the
module-level `interfaces` table made explicit; the output array is
fresh for each call. -/
def avroToTypeScriptFrom (t : TopSchema) (interfaces0 : List (String × String)) : String :=
  let st0 : ConvState := ⟨interfaces0, [], []⟩
  match t with
  | .enumS e => String.intercalate "\n" ((convertEnum e st0).2).buffer
  | .recS r => String.intercalate "\n" ((convertRecord r none st0).2).buffer

/-- `avroToTypeScript` as invoked on a fresh module. -/
def avroToTypeScript (t : TopSchema) : String :=
  avroToTypeScriptFrom t []

/-! ## Derived observations on the conversion

Named subexpressions of the source, used to state the theorems. -/

/-- The type string a field line is emitted with: the converted type of
the field, put through the resolution table one more time
(`interfaces.hasOwnProperty(type) ? interfaces[type] : type`). -/
def fieldRenderedType (f : AvroField) (p : Option RecordType) (st : ConvState) : String :=
  match convertType f.type (hasDefaultValue f.default) p st with
  | (ty, st1) => getKeyD st1.interfaces ty ty

/-- The resolved member list of a union: each member converted and
namespace-stripped, then resolved through the table state left by the
member conversions. -/
def resolvedMembers (ts : TypeList) (hdv : Bool) (st : ConvState) : List String :=
  match convertUnionMembers ts hdv st with
  | (names, st1) => names.map (fun n => getKeyD st1.interfaces n n)

/-- The `properName` of an array element: the converted `items` type,
namespace-stripped and resolved through the table. -/
def properNameOf (items : AvroType) (hdv : Bool) (st : ConvState) : String :=
  match convertType items hdv none st with
  | (raw, st1) => getKeyD st1.interfaces (stripNamespace raw) (stripNamespace raw)

/-! ## Concrete schema fixtures -/

/-- The union `["null", "boolean"]`. -/
def nullBoolUnion : AvroType :=
  .union (.cons (.prim "null") (.cons (.prim "boolean") .nil))

/-- A nullable field whose `default` key is present but falsy (`false`). -/
def fieldFalsyDefault : AvroField := .mk "f" none (some (.jbool false)) nullBoolUnion

/-- A record declared under a dotted namespace. -/
def nsPersonRec : RecordType := .mk "ns.Person" none .nil

/-- A record declared without a namespace. -/
def personRec : RecordType := .mk "Person" none .nil

/-- A plain enum. -/
def colorEnum : EnumType := ⟨"Color", none, ["RED", "GREEN"]⟩

/-- An enum declared under a dotted namespace. -/
def nsColorEnum : EnumType := ⟨"ns.Color", none, ["RED"]⟩

def addressRec : RecordType := .mk "Address" none .nil

def parentP1 : RecordType := .mk "P1" none .nil

def parentP2 : RecordType := .mk "P2" none .nil

def parentP : RecordType := .mk "P" none .nil

def addrRec : RecordType := .mk "Addr" none .nil

/-- Two top-level records named `a.P` and `b.P`, each holding a nested
record named `Address` as a field type. -/
def nestedParentA : RecordType :=
  .mk "a.P" none (.cons (.mk "addr" none none (.recT (.mk "Address" none .nil))) .nil)

def nestedParentB : RecordType :=
  .mk "b.P" none (.cons (.mk "addr" none none (.recT (.mk "Address" none .nil))) .nil)

/-- A record `P` with a field whose type is an array of the record `Addr`. -/
def arrFieldRec : RecordType :=
  .mk "P" none (.cons (.mk "xs" none none (.arr (.recT addrRec))) .nil)

/-- The union `["string", "string", "null"]`. -/
def strStrNull : TypeList :=
  .cons (.prim "string") (.cons (.prim "string") (.cons (.prim "null") .nil))

/-- The union `["A", "B"]` as an array element type. -/
def abUnion : AvroType := .union (.cons (.prim "A") (.cons (.prim "B") .nil))

/-- A record literally named `number`. -/
def numberRec : RecordType := .mk "number" none .nil

/-- The table state after translating the record named `number`. -/
def stNumber : ConvState := (convertRecord numberRec none initState).2

def intField : AvroField := .mk "x" none none (.prim "int")

/-- A record with one unrecognized-shape field followed by a normal one. -/
def unknownFieldRec : RecordType :=
  .mk "R" none (.cons (.mk "bad" none none .unknownT)
    (.cons (.mk "good" none none (.prim "string")) .nil))

/-! ## Helper lemmas -/

theorem getKey_setKey_self (m : List (String × String)) (k v : String) :
    getKey (setKey m k v) k = some v := by
  induction m with
  | nil => simp [setKey, getKey]
  | cons p rest ih =>
    obtain ⟨k2, v2⟩ := p
    by_cases h : k2 = k
    · simp [setKey, h, getKey]
    · simp [setKey, h, getKey, ih]

theorem isJsNull_eq_false_iff (v : JsonValue) : isJsNull v = false ↔ v ≠ JsonValue.jnull := by
  cases v <;> simp [isJsNull]

/-- The source test `!!(field.default || field.default === null)` is
false exactly when every present default is falsy and not null. -/
theorem hasDefaultValue_eq_false_iff (d : Option JsonValue) :
    hasDefaultValue d = false ↔
      ∀ v, d = some v → (jsTruthy v = false ∧ v ≠ JsonValue.jnull) := by
  cases d with
  | none => simp [hasDefaultValue]
  | some v => cases v <;> simp [hasDefaultValue, jsTruthy, isJsNull]

theorem mem_data_append {c : Char} (a b : String) :
    c ∈ (a ++ b).data ↔ c ∈ a.data ∨ c ∈ b.data := by
  rw [String.data_append, List.mem_append]

theorem firstIdx_get? {l : List String} {v : String} {i : Nat}
    (h : firstIdx l v = some i) : l.get? i = some v := by
  induction l generalizing i with
  | nil => simp [firstIdx] at h
  | cons x xs ih =>
    by_cases hx : x = v
    · simp only [firstIdx, if_pos hx, Option.some.injEq] at h
      subst h
      simp [List.get?, hx]
    · simp only [firstIdx, if_neg hx, Option.map_eq_some'] at h
      obtain ⟨j, hj, hji⟩ := h
      subst hji
      simpa [List.get?] using ih hj

theorem firstIdx_isSome_of_mem {l : List String} {v : String}
    (h : v ∈ l) : (firstIdx l v).isSome := by
  induction l with
  | nil => simp at h
  | cons x xs ih =>
    by_cases hx : x = v
    · simp [firstIdx, hx]
    · rcases List.mem_cons.mp h with h1 | h2
      · exact absurd h1.symm hx
      · simp [firstIdx, hx, Option.isSome_map, ih h2]

theorem jsIndexOf_beq_iff {arr : List String} {v : String} {i : Nat} :
    (jsIndexOf arr v == (i : Int)) = true ↔ firstIdx arr v = some i := by
  unfold jsIndexOf
  cases h : firstIdx arr v with
  | none =>
    simp only [beq_iff_eq]
    constructor
    · intro h2; exfalso; omega
    · intro h2; cases h2
  | some j =>
    simp only [beq_iff_eq, Option.some.injEq]
    constructor
    · intro h2; omega
    · intro h2; omega

theorem filterIsUnique_nodup (l : List String) : (filterIsUnique l).Nodup := by
  have henum : l.enum.Nodup := (List.nodup_enum_map_fst l).of_map _
  refine List.Nodup.map_on ?_ (List.Nodup.filter _ henum)
  intro x hx y hy hxy
  have hxi : firstIdx l x.2 = some x.1 := jsIndexOf_beq_iff.mp (List.mem_filter.mp hx).2
  have hyi : firstIdx l y.2 = some y.1 := jsIndexOf_beq_iff.mp (List.mem_filter.mp hy).2
  rw [hxy] at hxi
  rw [hxi] at hyi
  obtain ⟨x1, x2⟩ := x
  obtain ⟨y1, y2⟩ := y
  simp only at hxy hyi
  injection hyi with h1
  simp [hxy, h1]

theorem filterIsUnique_sublist (l : List String) : (filterIsUnique l).Sublist l := by
  have h1 := List.Sublist.map Prod.snd
    (List.filter_sublist (p := fun p => jsIndexOf l p.2 == (p.1 : Int)) l.enum)
  rw [List.enum_map_snd] at h1
  exact h1

theorem mem_filterIsUnique {l : List String} {v : String} (h : v ∈ l) :
    v ∈ filterIsUnique l := by
  obtain ⟨i, hi⟩ := Option.isSome_iff_exists.mp (firstIdx_isSome_of_mem h)
  have hget : l.get? i = some v := firstIdx_get? hi
  have hmem : (i, v) ∈ l.enum := by
    rw [List.mem_enum_iff_getElem?]
    rw [← List.get?_eq_getElem?]
    exact hget
  exact List.mem_map.mpr
    ⟨(i, v), List.mem_filter.mpr ⟨hmem, jsIndexOf_beq_iff.mpr hi⟩, rfl⟩

/-! ## Claim theorems -/

/-- Claim C1, corrected.  For a field whose own name and rendered type
carry no question mark (and no doc block), the emitted declaration
contains the optional marker exactly when the type is structurally
optional and every present default is falsy and not the explicit null —
i.e. exactly when `!!(field.default || field.default === null)` is
false.  A present but falsy non-null default (false, 0, empty string)
therefore still renders the field optional, unlike what the claim
states. -/
theorem optional_marker_iff_truthy_or_null_default
    (f : AvroField) (p : Option RecordType) (st : ConvState)
    (hdoc : f.doc = none)
    (hname : '?' ∉ f.name.data)
    (hty : '?' ∉ (fieldRenderedType f p st).data) :
    '?' ∈ ((convertFieldDec f p st).1).data ↔
      (isOptional f.type = true ∧
        ∀ v, f.default = some v → (jsTruthy v = false ∧ v ≠ JsonValue.jnull)) := by
  obtain ⟨fn, fd, fdef, fty⟩ := f
  simp only [AvroField.doc] at hdoc
  subst hdoc
  simp only [AvroField.name] at hname
  simp only [AvroField.type, AvroField.default]
  rw [← hasDefaultValue_eq_false_iff]
  rcases hC : convertType fty (hasDefaultValue fdef) p st with ⟨ty, st1⟩
  have hR : fieldRenderedType (.mk fn none fdef fty) p st = getKeyD st1.interfaces ty ty := by
    simp [fieldRenderedType, AvroField.type, AvroField.default, hC]
  rw [hR] at hty
  have hL : (convertFieldDec (.mk fn none fdef fty) p st).1 =
      "" ++ "\t" ++ fn ++
        (if isOptional fty && !hasDefaultValue fdef then "?" else "") ++ ": " ++
        getKeyD st1.interfaces ty ty ++ ";" := by
    simp [convertFieldDec, hC, createDocumentation]
  rw [hL]
  have hq : '?' ∈ ("?" : String).data := by decide
  have n0 : ¬ ('?' ∈ ("" : String).data) := by decide
  have n1 : ¬ ('?' ∈ ("\t" : String).data) := by decide
  have n2 : ¬ ('?' ∈ (": " : String).data) := by decide
  have n3 : ¬ ('?' ∈ (";" : String).data) := by decide
  cases hb : isOptional fty <;> cases hd : hasDefaultValue fdef <;>
    simp [mem_data_append, hq, n0, n1, n2, n3, hname, hty, hb, hd]

/-- Witness for `optional_marker_iff_truthy_or_null_default` at the
nullable field with default `false`. -/
theorem optional_marker_iff_truthy_or_null_default_witness :
    fieldFalsyDefault.doc = none ∧
    '?' ∉ fieldFalsyDefault.name.data ∧
    '?' ∉ (fieldRenderedType fieldFalsyDefault none initState).data ∧
    ('?' ∈ ((convertFieldDec fieldFalsyDefault none initState).1).data ↔
      (isOptional fieldFalsyDefault.type = true ∧
        ∀ v, fieldFalsyDefault.default = some v →
          (jsTruthy v = false ∧ v ≠ JsonValue.jnull))) :=
  ⟨rfl, by decide, by decide,
    optional_marker_iff_truthy_or_null_default fieldFalsyDefault none initState
      rfl (by decide) (by decide)⟩

/-- Counterexample to claim C1 as stated: the field `f` of type
`["null", "boolean"]` has a present default (`false`), so the claim
says it is rendered non-optional; the code treats the falsy default as
no default and emits the optional marker. -/
theorem optional_marker_falsy_default_cex :
    fieldFalsyDefault.default = some (.jbool false) ∧
    isOptional fieldFalsyDefault.type = true ∧
    (convertFieldDec fieldFalsyDefault none initState).1 =
      "\tf?: null | undefined | boolean;" ∧
    '?' ∈ ((convertFieldDec fieldFalsyDefault none initState).1).data :=
  ⟨rfl, rfl, rfl, by decide⟩

/-- Claim C2, corrected.  A record is registered in the resolution
table under its raw declared name and maps to its generated identifier;
a later primitive-type string reference resolves to that identifier
exactly when its namespace-stripped text equals the raw declared name,
so only records declared without a dotted namespace are ever found; and
enums are never registered at all. -/
theorem record_registration_resolution :
    (∀ (r : RecordType) (p : Option RecordType) (st : ConvState),
      getKey ((convertRecord r p st).2).interfaces r.name = some ((convertRecord r p st).1))
    ∧ (∀ (r : RecordType) (p : Option RecordType) (st : ConvState) (ref : String) (b : Bool),
      stripNamespace ref = r.name →
      ref ∉ (["long", "int", "double", "float", "bytes", "null", "boolean"] : List String) →
      convertPrimitive ref b ((convertRecord r p st).2).interfaces = (convertRecord r p st).1)
    ∧ (∀ (e : EnumType) (st : ConvState), ((convertEnum e st).2).interfaces = st.interfaces) := by
  refine ⟨?_, ?_, fun e st => rfl⟩
  · intro r p st
    obtain ⟨nm, doc, fields⟩ := r
    rcases hF : convertFields fields (.mk nm doc fields) st with ⟨lines, st1⟩
    cases p <;> simp [convertRecord, hF, RecordType.name, getKey_setKey_self]
  · intro r p st ref b hstrip href
    obtain ⟨nm, doc, fields⟩ := r
    simp only [RecordType.name] at hstrip
    simp only [List.mem_cons, List.mem_singleton, not_or] at href
    obtain ⟨h1, h2, h3, h4, h5, h6, h7⟩ := href
    rcases hF : convertFields fields (.mk nm doc fields) st with ⟨lines, st1⟩
    cases p <;>
      simp [convertRecord, hF, convertPrimitive, h1, h2, h3, h4, h5, h6, h7,
        hstrip, getKeyD, getKey_setKey_self]

/-- Witness for the resolution conjunct of
`record_registration_resolution` at a record named `Person` and a later
reference `demo.Person`. -/
theorem record_registration_resolution_witness :
    stripNamespace "demo.Person" = personRec.name ∧
    "demo.Person" ∉ (["long", "int", "double", "float", "bytes", "null", "boolean"] : List String) ∧
    convertPrimitive "demo.Person" false ((convertRecord personRec none initState).2).interfaces =
      (convertRecord personRec none initState).1 :=
  ⟨by decide, by decide,
    record_registration_resolution.2.1 personRec none initState "demo.Person" false
      (by decide) (by decide)⟩

/-- Counterexample to claim C2 as stated: the record `ns.Person` is
registered under its raw dotted name, so a later reference to
`ns.Person` (stripped to `Person` for lookup) misses the table and
yields the stripped reference text, not the generated identifier
`IPerson`; and translating an enum leaves the table empty. -/
theorem namespaced_registration_cex :
    ((convertRecord nsPersonRec none initState).2).interfaces = [("ns.Person", "IPerson")] ∧
    (convertRecord nsPersonRec none initState).1 = "IPerson" ∧
    convertPrimitive "ns.Person" false ((convertRecord nsPersonRec none initState).2).interfaces
      = "Person" ∧
    "Person" ≠ "IPerson" ∧
    ((convertEnum colorEnum initState).2).interfaces = [] :=
  ⟨rfl, rfl, rfl, by decide, rfl⟩

/-- Claim C3, corrected.  A record converted with a parent gets the
identifier `I` ++ stripped parent name ++ stripped own name, a
top-level record gets `I` ++ stripped own name, and two same-named
records under different parents get distinct identifiers whenever the
stripped parent names differ. -/
theorem record_identifier_formula :
    (∀ (r p : RecordType) (st : ConvState),
      (convertRecord r (some p) st).1 = "I" ++ stripNamespace p.name ++ stripNamespace r.name)
    ∧ (∀ (r : RecordType) (st : ConvState),
      (convertRecord r none st).1 = "I" ++ stripNamespace r.name)
    ∧ (∀ (r p1 p2 : RecordType) (st1 st2 : ConvState),
      stripNamespace p1.name ≠ stripNamespace p2.name →
      (convertRecord r (some p1) st1).1 ≠ (convertRecord r (some p2) st2).1) := by
  have hsome : ∀ (r p : RecordType) (st : ConvState),
      (convertRecord r (some p) st).1 = "I" ++ stripNamespace p.name ++ stripNamespace r.name := by
    intro r p st
    obtain ⟨nm, doc, fields⟩ := r
    rcases hF : convertFields fields (.mk nm doc fields) st with ⟨lines, st1⟩
    simp [convertRecord, hF, RecordType.name]
  refine ⟨hsome, ?_, ?_⟩
  · intro r st
    obtain ⟨nm, doc, fields⟩ := r
    rcases hF : convertFields fields (.mk nm doc fields) st with ⟨lines, st1⟩
    simp [convertRecord, hF, RecordType.name]
  · intro r p1 p2 st1 st2 hne heq
    rw [hsome, hsome] at heq
    have hdata := congrArg String.data heq
    simp only [String.data_append] at hdata
    have h1 := List.append_cancel_right hdata
    have h2 := List.append_cancel_left h1
    exact hne (String.ext h2)

/-- Witness for the distinctness conjunct of `record_identifier_formula`
at parents `P1` and `P2` with nested name `Address`. -/
theorem record_identifier_formula_witness :
    stripNamespace parentP1.name ≠ stripNamespace parentP2.name ∧
    (convertRecord addressRec (some parentP1) initState).1 ≠
      (convertRecord addressRec (some parentP2) initState).1 :=
  ⟨by decide,
    record_identifier_formula.2.2 addressRec parentP1 parentP2 initState initState (by decide)⟩

/-- Counterexample to claim C3 as stated: the parents `a.P` and `b.P`
are different records, yet the nested record `Address` under each gets
the same generated identifier `IPAddress`, because only the stripped
parent name enters the identifier. -/
theorem same_stripped_parent_collision_cex :
    getKey ((convertRecord nestedParentA none initState).2).interfaces "Address"
      = some "IPAddress" ∧
    getKey ((convertRecord nestedParentB none initState).2).interfaces "Address"
      = some "IPAddress" ∧
    nestedParentA ≠ nestedParentB :=
  ⟨rfl, rfl, by
    intro h
    exact absurd (congrArg RecordType.name h) (by decide)⟩

/-- Claim C4, corrected.  The generated enum identifier is the raw
declared name, verbatim: not namespace-stripped, never
parent-qualified, identical top-level or nested; the block lists each
declared symbol exactly once, in order, as `S = ` quote `S` quote. -/
theorem enum_identifier_verbatim :
    (∀ (e : EnumType) (st : ConvState), (convertEnum e st).1 = e.name)
    ∧ (∀ (e : EnumType) (hdv : Bool) (p : Option RecordType) (st : ConvState),
      convertType (.enumT e) hdv p st = convertEnum e st)
    ∧ (∀ (e : EnumType) (st : ConvState),
      ((convertEnum e st).2).buffer = st.buffer ++
        [createDocumentation e.doc 80 "" ++ "export enum " ++ e.name ++ " \x7b\n\t" ++
          String.intercalate ",\n\t"
            (e.symbols.map (fun s => s ++ " = " ++ quoteStr ++ s ++ quoteStr)) ++
          "\n\x7d\n"]) :=
  ⟨fun _ _ => rfl, fun _ _ _ _ => rfl, fun _ _ => rfl⟩

/-- Counterexample to claim C4 as stated: the enum `ns.Color` gets the
generated identifier `ns.Color`, not its namespace-stripped name
`Color`. -/
theorem enum_namespace_not_stripped_cex :
    (convertEnum nsColorEnum initState).1 = "ns.Color" ∧
    stripNamespace nsColorEnum.name = "Color" ∧
    "ns.Color" ≠ "Color" ∧
    (convertType (.enumT nsColorEnum) false (some parentP) initState).1 = "ns.Color" :=
  ⟨rfl, rfl, by decide, rfl⟩

/-- Claim C5, confirmed.  A union renders as its resolved member list
with duplicates removed, keeping only first occurrences (the kept list
is duplicate-free, an order-preserving sublist of the resolved list,
and has the same members), joined with the union separator; in
particular the union string/string/null renders as
`string | null | undefined` without a default and `string | null` with
one. -/
theorem union_dedup_first_occurrence :
    (∀ (ts : TypeList) (hdv : Bool) (p : Option RecordType) (st : ConvState),
      (convertType (.union ts) hdv p st).1 =
        String.intercalate " | " (filterIsUnique (resolvedMembers ts hdv st))
      ∧ (filterIsUnique (resolvedMembers ts hdv st)).Nodup
      ∧ (filterIsUnique (resolvedMembers ts hdv st)).Sublist (resolvedMembers ts hdv st)
      ∧ (∀ v, v ∈ resolvedMembers ts hdv st ↔ v ∈ filterIsUnique (resolvedMembers ts hdv st)))
    ∧ (convertType (.union strStrNull) false none initState).1 = "string | null | undefined"
    ∧ (convertType (.union strStrNull) true none initState).1 = "string | null" := by
  refine ⟨?_, rfl, rfl⟩
  intro ts hdv p st
  refine ⟨?_, filterIsUnique_nodup _, filterIsUnique_sublist _,
    fun v => ⟨fun h => mem_filterIsUnique h, fun h => (filterIsUnique_sublist _).subset h⟩⟩
  rcases hU : convertUnionMembers ts hdv st with ⟨names, st1⟩
  simp [convertType, resolvedMembers, hU]

/-- Claim C6, corrected.  Only a record that is directly the type of a
field receives the enclosing record as parent context; the recursive
calls for array items, map values and union members drop the parent
entirely. -/
theorem parent_context_direct_only :
    (∀ (t : AvroType) (hdv : Bool) (p : Option RecordType) (st : ConvState),
      convertType (.arr t) hdv p st = convertType (.arr t) hdv none st)
    ∧ (∀ (t : AvroType) (hdv : Bool) (p : Option RecordType) (st : ConvState),
      convertType (.mapT t) hdv p st = convertType (.mapT t) hdv none st)
    ∧ (∀ (ts : TypeList) (hdv : Bool) (p : Option RecordType) (st : ConvState),
      convertType (.union ts) hdv p st = convertType (.union ts) hdv none st)
    ∧ (∀ (r : RecordType) (hdv : Bool) (p : Option RecordType) (st : ConvState),
      convertType (.recT r) hdv p st = convertRecord r p st) :=
  ⟨fun _ _ _ _ => rfl, fun _ _ _ _ => rfl, fun _ _ _ _ => rfl, fun _ _ _ _ => rfl⟩

/-- Counterexample to claim C6 as stated: inside the record `P`, a
record `Addr` reached as the element type of an array field is
converted without parent context, so its generated identifier is
`IAddr`, not the parent-qualified `IPAddr` the claim requires. -/
theorem array_item_record_no_parent_cex :
    getKey ((convertRecord arrFieldRec none initState).2).interfaces "Addr" = some "IAddr" ∧
    (convertType (.arr (.recT addrRec)) false (some parentP) initState).1 = "IAddr[]" ∧
    "IAddr" ≠ "IPAddr" :=
  ⟨rfl, rfl, by decide⟩

/-- Claim C7, corrected.  The `hasDefaultValue` flag is passed on into
the recursive translation of array items and map values, so a `null`
nested there follows the has-default path when the field has a
default. -/
theorem hasDefault_threaded_array_map :
    ∀ (hdv : Bool) (p : Option RecordType),
      (convertType (.arr (.prim "null")) hdv p initState).1 =
        (if hdv then "null[]" else "Array<null | undefined>")
      ∧ (convertType (.mapT (.prim "null")) hdv p initState).1 =
        "\x7b [key: string]: " ++ (if hdv then "null" else "null | undefined") ++ " \x7d" := by
  intro hdv p
  cases hdv <;> exact ⟨rfl, rfl⟩

/-- Counterexample to claim C7 as stated: with a defaulted field, an
array of `null` renders `null[]` — the has-default rendering — and not
the no-default rendering `Array<null | undefined>` the claim predicts;
the same flag-sensitivity shows for map values. -/
theorem array_null_default_threaded_cex :
    (convertType (.arr (.prim "null")) true none initState).1 = "null[]" ∧
    (convertType (.arr (.prim "null")) false none initState).1 = "Array<null | undefined>" ∧
    "null[]" ≠ "Array<null | undefined>" ∧
    (convertType (.mapT (.prim "null")) true none initState).1 ≠
      (convertType (.mapT (.prim "null")) false none initState).1 :=
  ⟨rfl, rfl, by decide, by decide⟩

/-- Claim C8, confirmed.  An array type renders as the parametrized
form `Array<element>` exactly when the resolved element type contains
the union separator, and as `element[]` otherwise. -/
theorem array_of_union_parametrized (items : AvroType) (hdv : Bool)
    (p : Option RecordType) (st : ConvState) :
    (isUnionStr (properNameOf items hdv st) = true →
      (convertType (.arr items) hdv p st).1 = "Array<" ++ properNameOf items hdv st ++ ">")
    ∧ (isUnionStr (properNameOf items hdv st) = false →
      (convertType (.arr items) hdv p st).1 = properNameOf items hdv st ++ "[]") := by
  rcases hI : convertType items hdv none st with ⟨raw, st1⟩
  have hPN : properNameOf items hdv st =
      getKeyD st1.interfaces (stripNamespace raw) (stripNamespace raw) := by
    simp [properNameOf, hI]
  constructor <;> intro h <;> rw [hPN] at h <;> simp [convertType, hI, hPN, h]

/-- Witness for `array_of_union_parametrized`: an array of the union
`A | B` takes the parametrized branch, an array of `string` takes the
suffix branch. -/
theorem array_of_union_parametrized_witness :
    isUnionStr (properNameOf abUnion false initState) = true ∧
    (convertType (.arr abUnion) false none initState).1 = "Array<A | B>" ∧
    isUnionStr (properNameOf (.prim "string") false initState) = false ∧
    (convertType (.arr (.prim "string")) false none initState).1 = "string[]" := by
  refine ⟨by decide, ?_, by decide, ?_⟩
  · have h := (array_of_union_parametrized abUnion false none initState).1 (by decide)
    exact h.trans (by decide)
  · have h := (array_of_union_parametrized (.prim "string") false none initState).2 (by decide)
    exact h.trans (by decide)

/-- Claim C9, confirmed.  An unrecognized shape is non-fatal: the
conversion returns the sentinel `UNKNOWN` for that position, pushes a
diagnostic on the side channel, and the remaining fields of the schema
are still translated into the returned text. -/
theorem unknown_shape_nonfatal :
    (∀ (hdv : Bool) (p : Option RecordType) (st : ConvState),
      convertType .unknownT hdv p st =
        ("UNKNOWN", { st with diagnostics := st.diagnostics ++ ["Cannot work out type"] }))
    ∧ avroToTypeScript (.recS unknownFieldRec) =
        "export interface IR \x7b\n\tbad: UNKNOWN;\n\tgood: string;\n\x7d\n"
    ∧ ((convertRecord unknownFieldRec none initState).2).diagnostics = ["Cannot work out type"] :=
  ⟨fun _ _ _ => rfl, rfl, rfl⟩

/-- Claim C10, confirmed.  The full rendered type string of a field is
looked up in the resolution table once more before the field line is
emitted, so when the lookup hits, the line carries the table entry; in
particular, after a record literally named `number` is translated,
a later `int` field is emitted with `Inumber`. -/
theorem field_line_second_lookup :
    (∀ (f : AvroField) (p : Option RecordType) (st : ConvState) (g : String),
      getKey ((convertType f.type (hasDefaultValue f.default) p st).2).interfaces
        ((convertType f.type (hasDefaultValue f.default) p st).1) = some g →
      (convertFieldDec f p st).1 =
        createDocumentation f.doc 80 "\t" ++ "\t" ++ f.name ++
          (if isOptional f.type && !hasDefaultValue f.default then "?" else "") ++
          ": " ++ g ++ ";")
    ∧ (convertFieldDec intField none stNumber).1 = "\tx: Inumber;" := by
  refine ⟨?_, rfl⟩
  intro f p st g h
  obtain ⟨fn, fd, fdef, fty⟩ := f
  simp only [AvroField.type, AvroField.default, AvroField.name, AvroField.doc] at *
  rcases hC : convertType fty (hasDefaultValue fdef) p st with ⟨ty, st1⟩
  rw [hC] at h
  simp only at h
  simp [convertFieldDec, hC, getKeyD, h]

/-- Witness for `field_line_second_lookup` at the `number`-record
scenario. -/
theorem field_line_second_lookup_witness :
    getKey ((convertType intField.type (hasDefaultValue intField.default) none stNumber).2).interfaces
      ((convertType intField.type (hasDefaultValue intField.default) none stNumber).1)
      = some "Inumber" ∧
    (convertFieldDec intField none stNumber).1 =
      createDocumentation intField.doc 80 "\t" ++ "\t" ++ intField.name ++
        (if isOptional intField.type && !hasDefaultValue intField.default then "?" else "") ++
        ": " ++ "Inumber" ++ ";" :=
  ⟨by decide, field_line_second_lookup.1 intField none stNumber "Inumber" (by decide)⟩

end AvroTS
